import Mathlib

/-!
Verification of the data pipeline of src/dashboard.py (spotify-dashboard).

The file shallowly embeds the normalization, filtering and aggregation
logic of the dashboard: Python values appearing in Mongo documents and
pandas rows are modelled by the inductive type PyVal, a raw record is a
list of field/value pairs, and each helper of the source is translated
to an executable Lean function. Machine reals never appear: durations
are integers and minute totals are rationals (the source divides exact
integer sums by 60). Pandas timestamps are instants carrying their
derived calendar accessors as fields; the permissive string date parser
of pandas is an external library facility no claim depends on, so
to_datetime with coercion passes an already parsed timestamp through
and coerces every other value to missing.
-/

namespace Dashboard

/-- A pandas Timestamp: an instant (nanoseconds since the epoch) together
with the calendar accessors the dashboard reads from the dt namespace.
The accessors are stored as fields because their calendar arithmetic
lives in the pandas library, outside the source under verification;
comparisons between timestamps are comparisons of the instant. -/
structure Timestamp where
  ns : Int
  year : Int
  month : Nat
  hour : Nat
  dayofweek : Nat
deriving Repr, DecidableEq

/-- Python values as they occur in the Mongo documents and pandas rows the
dashboard processes. The constructor named none stands both for the Python
value None and for a pandas missing value (NaN or NaT): the source treats
the two identically in every place it reads a field (isinstance checks
fail for both). Floats are omitted; no claim involves them. -/
inductive PyVal where
  | none
  | bool (b : Bool)
  | int (n : Int)
  | str (s : String)
  | timestamp (t : Timestamp)
  | list (items : List PyVal)
  | dict (entries : List (String × PyVal))
deriving Repr

mutual

/-- Structural equality test for PyVal, needed because automatic deriving
does not handle the nested lists. -/
def PyVal.beq : PyVal → PyVal → Bool
  | .none, .none => true
  | .bool a, .bool b => a == b
  | .int a, .int b => a == b
  | .str a, .str b => a == b
  | .timestamp a, .timestamp b => a == b
  | .list xs, .list ys => PyVal.beqList xs ys
  | .dict xs, .dict ys => PyVal.beqDict xs ys
  | _, _ => false

/-- Pointwise PyVal.beq on lists. -/
def PyVal.beqList : List PyVal → List PyVal → Bool
  | [], [] => true
  | a :: as, b :: bs => PyVal.beq a b && PyVal.beqList as bs
  | _, _ => false

/-- Pointwise PyVal.beq on association lists. -/
def PyVal.beqDict : List (String × PyVal) → List (String × PyVal) → Bool
  | [], [] => true
  | (k, a) :: as, (l, b) :: bs => k == l && PyVal.beq a b && PyVal.beqDict as bs
  | _, _ => false

end

mutual

theorem PyVal.beq_iff : ∀ a b : PyVal, PyVal.beq a b = true ↔ a = b
  | .none, b => by cases b <;> simp [PyVal.beq]
  | .bool a, b => by cases b <;> simp [PyVal.beq]
  | .int a, b => by cases b <;> simp [PyVal.beq]
  | .str a, b => by cases b <;> simp [PyVal.beq]
  | .timestamp a, b => by cases b <;> simp [PyVal.beq]
  | .list xs, b => by
      cases b <;> simp [PyVal.beq]
      exact PyVal.beqList_iff xs _
  | .dict xs, b => by
      cases b <;> simp [PyVal.beq]
      exact PyVal.beqDict_iff xs _

theorem PyVal.beqList_iff : ∀ xs ys : List PyVal, PyVal.beqList xs ys = true ↔ xs = ys
  | [], ys => by cases ys <;> simp [PyVal.beqList]
  | x :: xs, ys => by
      cases ys with
      | nil => simp [PyVal.beqList]
      | cons y ys => simp [PyVal.beqList, PyVal.beq_iff x y, PyVal.beqList_iff xs ys]

theorem PyVal.beqDict_iff :
    ∀ xs ys : List (String × PyVal), PyVal.beqDict xs ys = true ↔ xs = ys
  | [], ys => by cases ys <;> simp [PyVal.beqDict]
  | (k, x) :: xs, ys => by
      cases ys with
      | nil => simp [PyVal.beqDict]
      | cons y ys =>
          obtain ⟨l, v⟩ := y
          simp [PyVal.beqDict, PyVal.beq_iff x v, PyVal.beqDict_iff xs ys, and_assoc]

end

instance : DecidableEq PyVal := fun a b =>
  decidable_of_iff (PyVal.beq a b = true) (PyVal.beq_iff a b)

/-- A raw record: one Mongo document, or equivalently one pandas row as the
per row helpers of the source see it (a mapping from field names to values). -/
abbrev Row := List (String × PyVal)

/-- Field access as row.get(key) in the source: the value when the field is
present, nothing otherwise. A pandas row yields NaN for a column the record
lacks; both cases make every isinstance check in the source fail, so the
distinction is immaterial to the embedded code. -/
def Row.get (row : Row) (key : String) : Option PyVal :=
  (List.find? (fun p => p.1 == key) row).map (fun p => p.2)

/-- Field access defaulting to the missing value. -/
def Row.getD (row : Row) (key : String) : PyVal :=
  (Row.get row key).getD PyVal.none

/-- Characters the Python str.strip call removes (the ASCII whitespace
Python strips: space, tab, newline, carriage return, vertical tab, form
feed). -/
def isPySpace (c : Char) : Bool :=
  c == ' ' || c == '\t' || c == '\n' || c == '\r' || c == Char.ofNat 11 || c == Char.ofNat 12

/-- Python str.strip on a list of characters: drop whitespace from both
ends. -/
def pyStripList (cs : List Char) : List Char :=
  ((cs.dropWhile isPySpace).reverse.dropWhile isPySpace).reverse

/-- Python str.strip. -/
def pyStrip (s : String) : String :=
  String.mk (pyStripList s.data)

/-- Python truthiness of a value, as used by the source in conditions such
as the check on a name field. -/
def pyTruthy : PyVal → Bool
  | .none => false
  | .bool b => b
  | .int n => n != 0
  | .str s => s != ""
  | .timestamp _ => true
  | .list xs => !xs.isEmpty
  | .dict xs => !xs.isEmpty

/-- A single quote character, used by the Python repr of strings. -/
def singleQuote : String :=
  String.singleton (Char.ofNat 39)

mutual

/-- Python repr of a value, reached by str on containers. Only the cases a
claim exercises matter (integers); the container cases are included for
totality. -/
def pyRepr : PyVal → String
  | .none => "None"
  | .bool b => if b then "True" else "False"
  | .int n => toString n
  | .str s => singleQuote ++ s ++ singleQuote
  | .timestamp t => "Timestamp(" ++ toString t.ns ++ ")"
  | .list xs => "[" ++ pyReprList xs ++ "]"
  | .dict xs => "\x7b" ++ pyReprDict xs ++ "\x7d"

/-- Comma separated reprs of list items. -/
def pyReprList : List PyVal → String
  | [] => ""
  | [x] => pyRepr x
  | x :: xs => pyRepr x ++ ", " ++ pyReprList xs

/-- Comma separated reprs of dict entries. -/
def pyReprDict : List (String × PyVal) → String
  | [] => ""
  | [(k, v)] => singleQuote ++ k ++ singleQuote ++ ": " ++ pyRepr v
  | (k, v) :: xs => singleQuote ++ k ++ singleQuote ++ ": " ++ pyRepr v ++ ", " ++ pyReprDict xs

end

/-- Python str of a value. On a string it is the identity, on an integer the
decimal representation (with a leading minus for negatives, as in Lean);
containers fall back to their repr. -/
def pyStr : PyVal → String
  | .str s => s
  | .none => "None"
  | .bool b => if b then "True" else "False"
  | .int n => toString n
  | v => pyRepr v

/-- Value of a decimal digit character. -/
def digitVal (c : Char) : Nat :=
  c.toNat - 48

/-- Parse a nonempty all digit character list as a natural number. -/
def parseDigits (cs : List Char) : Option Nat :=
  if cs.isEmpty then Option.none
  else if cs.all Char.isDigit then some (cs.foldl (fun acc c => acc * 10 + digitVal c) 0)
  else Option.none

/-- The Python int builtin applied to a string: surrounding whitespace is
ignored, an optional single sign precedes a nonempty run of decimal
digits, and anything else raises ValueError (here: yields nothing).
Underscore digit grouping and non ASCII digits, which Python also accepts,
are not modelled; no claim involves them. -/
def pyIntOfString (s : String) : Option Int :=
  match pyStripList s.data with
  | [] => Option.none
  | c :: cs =>
    if c == '+' then (parseDigits cs).map Int.ofNat
    else if c == '-' then (parseDigits cs).map (fun n => -(n : Int))
    else (parseDigits (c :: cs)).map Int.ofNat

/-- Python str.split with a one character separator, on character lists:
every occurrence of the separator starts a new part and empty parts are
kept, so a string of n separators yields n plus one parts. -/
def splitCharList (sep : Char) : List Char → List (List Char)
  | [] => [[]]
  | c :: rest =>
    match splitCharList sep rest with
    | [] => if c == sep then [[], []] else [[c]]
    | part :: parts => if c == sep then [] :: part :: parts else (c :: part) :: parts

/-- Python str.split with a one character separator. -/
def pySplit (sep : Char) (s : String) : List String :=
  (splitCharList sep s.data).map String.mk

/-- Embeds duration_to_seconds of src/dashboard.py (lines 41 to 52): a non
string yields 0; a string is split on every colon; exactly two parts are
converted with int inside a try block returning minutes times 60 plus
seconds, a ValueError from either conversion yields 0; any other part
count yields 0. -/
def duration_to_seconds (duration : PyVal) : Int :=
  match duration with
  | .str s =>
    match pySplit ':' s with
    | [p0, p1] =>
      match pyIntOfString p0, pyIntOfString p1 with
      | some m, some sec => m * 60 + sec
      | _, _ => 0
    | _ => 0
  | _ => 0

/-- Embeds the loop body of extract_artists_list (lines 70 to 76): a dict
item containing a name key contributes str(name).strip() when name is
truthy and the stripped text is nonempty; a string item contributes its
stripped text when nonempty; every other item is skipped. -/
def artistFromItem (item : PyVal) : Option String :=
  match item with
  | .dict entries =>
    match (List.find? (fun p => p.1 == "name") entries).map (fun p => p.2) with
    | some name =>
        if pyTruthy name && pyStrip (pyStr name) != "" then some (pyStrip (pyStr name))
        else Option.none
    | Option.none => Option.none
  | .str s => if pyStrip s != "" then some (pyStrip s) else Option.none
  | _ => Option.none

/-- Embeds the preferred branch of extract_artists_list (lines 68 to 76):
when the artists field holds a nonempty list, collect the names its items
yield, in order; otherwise collect nothing. -/
def artistsFromListField (row : Row) : List String :=
  match Row.get row "artists" with
  | some (.list raw) => if raw.length > 0 then raw.filterMap artistFromItem else []
  | _ => []

/-- Embeds the two scalar fallbacks of extract_artists_list (lines 79 to
88): a field that is a string with nonempty stripped text yields that
stripped text as a one element list, anything else yields nothing. -/
def scalarStringField (row : Row) (key : String) : List String :=
  match Row.get row key with
  | some (.str a) => if pyStrip a != "" then [pyStrip a] else []
  | _ => []

/-- Embeds extract_artists_list of src/dashboard.py (lines 55 to 90): the
artists list field is tried first, then the scalar artist field, then the
album field, and the sentinel closes the chain; each fallback fires only
when the names collected so far are none. -/
def extract_artists_list (row : Row) : List String :=
  let artists := artistsFromListField row
  let artists := if artists.isEmpty then scalarStringField row "artist" else artists
  let artists := if artists.isEmpty then scalarStringField row "album" else artists
  if artists.isEmpty then ["Unknown Artist"] else artists

/-- Embeds pd.to_datetime with errors coerce as applied to the played_at
column (line 282): an already parsed timestamp passes through and every
other value coerces to missing. The permissive string parsing pandas also
performs lives in the library, outside the source, and no claim depends
on it. -/
def pdToDatetime : PyVal → Option Timestamp
  | .timestamp t => some t
  | _ => Option.none

/-- The canonical record the normalization block (lines 279 to 302)
derives: parsed timestamp, track name (renamed from title when track_name
is absent), the resolved artists with their display join, and the parsed
duration. -/
structure NormalizedPlay where
  played_at : Option Timestamp
  track_name : PyVal
  artists : List String
  artist_display : String
  album : PyVal
  time_taken : PyVal
  played_duration_sec : Int
deriving Repr, DecidableEq

/-- Embeds the per record effect of the normalization block (lines 279 to
302): played_at through to_datetime with coercion, the title column
renamed to track_name when track_name is absent (line 285), artists via
extract_artists_list, artist_display as the comma join of the artists
list (line 291), and played_duration_sec via duration_to_seconds on
time_taken (line 297; a record without the field holds a missing value,
which duration_to_seconds sends to 0, matching the column level default
of line 299). -/
def normalizeRecord (row : Row) : NormalizedPlay :=
  let artists := extract_artists_list row
  { played_at := pdToDatetime (Row.getD row "played_at")
    track_name := if (Row.get row "track_name").isSome then Row.getD row "track_name"
                  else Row.getD row "title"
    artists := artists
    artist_display := String.intercalate ", " artists
    album := Row.getD row "album"
    time_taken := Row.getD row "time_taken"
    played_duration_sec := duration_to_seconds (Row.getD row "time_taken") }

/-- The whole normalization stage: every raw record becomes one normalized
play. -/
def normalize (rows : List Row) : List NormalizedPlay :=
  rows.map normalizeRecord

/-- Both parts of a two part duration string parse to non negative
integers, or the value does not reach the arithmetic branch at all. -/
def nonNegTimeParts (v : PyVal) : Bool :=
  match v with
  | .str s =>
    match pySplit ':' s with
    | [p0, p1] =>
      match pyIntOfString p0, pyIntOfString p1 with
      | some m, some sec => decide (0 ≤ m) && decide (0 ≤ sec)
      | _, _ => true
    | _ => true
  | _ => true

/-- The value is a string splitting on colons into exactly two parts that
both parse as integers (the only shape the arithmetic branch of
duration_to_seconds accepts). -/
def twoIntParts (v : PyVal) : Bool :=
  match v with
  | .str s =>
    match pySplit ':' s with
    | [p0, p1] => (pyIntOfString p0).isSome && (pyIntOfString p1).isSome
    | _ => false
  | _ => false

theorem dropWhile_eq_self_of_head {α : Type} (p : α → Bool) (l : List α)
    (h : ∀ c, l.head? = some c → p c = false) : l.dropWhile p = l := by
  cases l with
  | nil => rfl
  | cons a l => rw [List.dropWhile_cons]; simp [h a rfl]

theorem head_dropWhile_false {α : Type} (p : α → Bool) (l : List α) (c : α)
    (h : (l.dropWhile p).head? = some c) : p c = false := by
  have := List.head?_dropWhile_not p l
  rw [h] at this
  simpa using this

theorem pyStripList_idempotent (cs : List Char) :
    pyStripList (pyStripList cs) = pyStripList cs := by
  unfold pyStripList
  have h1 : ((((cs.dropWhile isPySpace).reverse.dropWhile
      isPySpace).reverse).dropWhile isPySpace) =
      ((cs.dropWhile isPySpace).reverse.dropWhile isPySpace).reverse := by
    apply dropWhile_eq_self_of_head
    intro c hc
    rw [List.head?_reverse] at hc
    rcases List.dropWhile_suffix (l := (cs.dropWhile isPySpace).reverse) isPySpace with ⟨t, ht⟩
    have hrne : (cs.dropWhile isPySpace).reverse.dropWhile isPySpace ≠ [] := by
      intro h0
      rw [h0] at hc
      simp at hc
    have h2 : (cs.dropWhile isPySpace).reverse.getLast? = some c := by
      rw [← ht, List.getLast?_append_of_ne_nil t hrne, hc]
    rw [List.getLast?_reverse] at h2
    exact head_dropWhile_false isPySpace cs c h2
  rw [h1, List.reverse_reverse, List.dropWhile_idempotent]

theorem pyStrip_idempotent (s : String) : pyStrip (pyStrip s) = pyStrip s :=
  congrArg String.mk (pyStripList_idempotent s.data)

theorem artistFromItem_eq_some {item : PyVal} {a : String}
    (h : artistFromItem item = some a) : (∃ s, a = pyStrip s) ∧ a ≠ "" := by
  unfold artistFromItem at h
  split at h
  · split at h
    · next name hfind =>
        split at h
        · next hg =>
            have ha : a = pyStrip (pyStr name) := by
              simpa using h.symm
            simp only [Bool.and_eq_true, bne_iff_ne, ne_eq] at hg
            exact ⟨⟨pyStr name, ha⟩, ha ▸ hg.2⟩
        · exact absurd h (by simp)
    · exact absurd h (by simp)
  · rename_i s
    split at h
    · rename_i hg
      have ha : a = pyStrip s := by simpa using h.symm
      simp only [bne_iff_ne, ne_eq] at hg
      exact ⟨⟨s, ha⟩, ha ▸ hg⟩
    · exact absurd h (by simp)
  · exact absurd h (by simp)

theorem mem_artistsFromListField {row : Row} {a : String}
    (h : a ∈ artistsFromListField row) : (∃ s, a = pyStrip s) ∧ a ≠ "" := by
  unfold artistsFromListField at h
  split at h
  · split at h
    · rcases List.mem_filterMap.mp h with ⟨item, _, hit⟩
      exact artistFromItem_eq_some hit
    · simp at h
  · simp at h

theorem mem_scalarStringField {row : Row} {key a : String}
    (h : a ∈ scalarStringField row key) : (∃ s, a = pyStrip s) ∧ a ≠ "" := by
  unfold scalarStringField at h
  split at h
  · next s _ =>
      split at h
      · next hs =>
          have ha : a = pyStrip s := by simpa using h
          simp only [bne_iff_ne, ne_eq] at hs
          exact ⟨⟨s, ha⟩, ha ▸ hs⟩
      · simp at h
  · simp at h

theorem extract_artists_list_eq_chain (row : Row) :
    extract_artists_list row =
      if artistsFromListField row ≠ [] then artistsFromListField row
      else if scalarStringField row "artist" ≠ [] then scalarStringField row "artist"
      else if scalarStringField row "album" ≠ [] then scalarStringField row "album"
      else ["Unknown Artist"] := by
  unfold extract_artists_list
  by_cases h1 : artistsFromListField row = [] <;>
    by_cases h2 : scalarStringField row "artist" = [] <;>
      by_cases h3 : scalarStringField row "album" = [] <;>
        simp [h1, h2, h3, List.isEmpty_iff]

theorem mem_extract_artists_list {row : Row} {a : String}
    (h : a ∈ extract_artists_list row) : (∃ s, a = pyStrip s) ∧ a ≠ "" := by
  rw [extract_artists_list_eq_chain] at h
  split at h
  · exact mem_artistsFromListField h
  · split at h
    · exact mem_scalarStringField h
    · split at h
      · exact mem_scalarStringField h
      · have : a = "Unknown Artist" := by simpa using h
        subst this
        exact ⟨⟨"Unknown Artist", by decide⟩, by decide⟩

theorem extract_artists_list_ne_nil (row : Row) : extract_artists_list row ≠ [] := by
  rw [extract_artists_list_eq_chain]
  split
  · assumption
  · split
    · assumption
    · split
      · assumption
      · simp

theorem extract_artists_trimmed (row : Row) :
    ∀ a ∈ extract_artists_list row, pyStrip a = a ∧ a ≠ "" := by
  intro a ha
  rcases mem_extract_artists_list ha with ⟨⟨s, hs⟩, hne⟩
  exact ⟨by rw [hs, pyStrip_idempotent], hne⟩

theorem duration_to_seconds_of_parts (s p0 p1 : String) (m k : Int)
    (hsp : pySplit ':' s = [p0, p1]) (h0 : pyIntOfString p0 = some m)
    (h1 : pyIntOfString p1 = some k) :
    duration_to_seconds (PyVal.str s) = m * 60 + k := by
  simp [duration_to_seconds, hsp, h0, h1]

theorem duration_to_seconds_nonneg_of_parts (v : PyVal)
    (hv : nonNegTimeParts v = true) : 0 ≤ duration_to_seconds v := by
  cases v <;> simp only [duration_to_seconds, nonNegTimeParts] at hv ⊢ <;> try simp
  case str s =>
    rcases hsp : pySplit ':' s with _ | ⟨p0, _ | ⟨p1, _ | ⟨p2, rest⟩⟩⟩ <;>
      (try rw [hsp] at hv) <;> try simp
    rcases hp0 : pyIntOfString p0 with _ | m <;> rcases hp1 : pyIntOfString p1 with _ | k <;>
      try simp
    simp only [hp0, hp1, Bool.and_eq_true, decide_eq_true_eq] at hv
    exact add_nonneg (mul_nonneg hv.1 (by norm_num)) hv.2

theorem duration_to_seconds_zero_of_not_two_parts (v : PyVal)
    (hv : twoIntParts v = false) : duration_to_seconds v = 0 := by
  cases v <;> simp only [duration_to_seconds, twoIntParts] at hv ⊢ <;> try simp
  case str s =>
    rcases hsp : pySplit ':' s with _ | ⟨p0, _ | ⟨p1, _ | ⟨p2, rest⟩⟩⟩ <;>
      (try rw [hsp] at hv) <;> try simp
    rcases hp0 : pyIntOfString p0 with _ | m <;> rcases hp1 : pyIntOfString p1 with _ | k <;>
      (try simp [hp0, hp1] at hv) <;> simp

/-- Claim C1, counterexample: the record with time_taken set to the string
minus one colon thirty normalizes, without raising, to a play whose
played_duration_sec is the negative integer minus thirty, so the claimed
non negativity of played_duration_sec fails on the code. -/
theorem normalize_nonneg_duration_cex :
    (normalizeRecord [("time_taken", PyVal.str "-1:30")]).played_duration_sec = -30 ∧
    (normalizeRecord [("time_taken", PyVal.str "-1:30")]).played_duration_sec < 0 := by
  constructor <;> decide

/-- Claim C1, amended: for every raw record, normalization (a total
function, so it never raises) yields a play with a non empty artists
list, and its played_duration_sec equals duration_to_seconds of the
time_taken field, which is non negative whenever the two parsed parts of
that field are non negative; a signed part, as in the string minus one
colon thirty, can make it negative. -/
theorem normalize_invariants (row : Row) :
    (normalizeRecord row).artists ≠ [] ∧
    1 ≤ (normalizeRecord row).artists.length ∧
    (normalizeRecord row).played_duration_sec =
      duration_to_seconds (Row.getD row "time_taken") ∧
    (nonNegTimeParts (Row.getD row "time_taken") = true →
      0 ≤ (normalizeRecord row).played_duration_sec) := by
  refine ⟨extract_artists_list_ne_nil row, ?_, rfl, ?_⟩
  · have h := extract_artists_list_ne_nil row
    have : 0 < (extract_artists_list row).length := List.length_pos.mpr h
    simpa [normalizeRecord] using this
  · intro h
    exact duration_to_seconds_nonneg_of_parts _ h

/-- Claim C1, witness for the amended theorem at a concrete record: a
record with artist Ana and time_taken three colon two normalizes to a
play with a non empty artists list and duration 182. -/
theorem normalize_invariants_witness :
    (normalizeRecord [("artist", PyVal.str "Ana"), ("time_taken", PyVal.str "3:02")]).artists ≠ [] ∧
    0 ≤ (normalizeRecord [("artist", PyVal.str "Ana"),
      ("time_taken", PyVal.str "3:02")]).played_duration_sec := by
  have h := normalize_invariants [("artist", PyVal.str "Ana"), ("time_taken", PyVal.str "3:02")]
  exact ⟨h.1, h.2.2.2 (by decide)⟩

/-- Claim C2: the artist resolution chain takes, in order of first match,
the names collected from a nonempty artists list, else the stripped non
blank scalar artist string, else the stripped non blank album string,
else the sentinel Unknown Artist; the result is always a non empty list
of stripped non blank strings; the four example records of the spec
resolve as stated. -/
theorem artist_fallback_chain_spec (row : Row) :
    extract_artists_list row ≠ [] ∧
    (∀ a ∈ extract_artists_list row, pyStrip a = a ∧ a ≠ "") ∧
    (artistsFromListField row ≠ [] →
      extract_artists_list row = artistsFromListField row) ∧
    (artistsFromListField row = [] → scalarStringField row "artist" ≠ [] →
      extract_artists_list row = scalarStringField row "artist") ∧
    (artistsFromListField row = [] → scalarStringField row "artist" = [] →
      scalarStringField row "album" ≠ [] →
      extract_artists_list row = scalarStringField row "album") ∧
    (artistsFromListField row = [] → scalarStringField row "artist" = [] →
      scalarStringField row "album" = [] →
      extract_artists_list row = ["Unknown Artist"]) ∧
    extract_artists_list
      [("artists", PyVal.list [PyVal.dict [("name", PyVal.str "A")],
        PyVal.dict [("name", PyVal.str "")], PyVal.str "B"])] = ["A", "B"] ∧
    extract_artists_list [("artist", PyVal.str "C")] = ["C"] ∧
    extract_artists_list [("album", PyVal.str "Album")] = ["Album"] ∧
    extract_artists_list ([] : Row) = ["Unknown Artist"] := by
  refine ⟨extract_artists_list_ne_nil row, extract_artists_trimmed row, ?_, ?_, ?_, ?_,
    by decide, by decide, by decide, by decide⟩
  · intro h1
    rw [extract_artists_list_eq_chain, if_pos h1]
  · intro h1 h2
    rw [extract_artists_list_eq_chain, if_neg (by simpa using h1), if_pos h2]
  · intro h1 h2 h3
    rw [extract_artists_list_eq_chain, if_neg (by simpa using h1),
      if_neg (by simpa using h2), if_pos h3]
  · intro h1 h2 h3
    rw [extract_artists_list_eq_chain, if_neg (by simpa using h1),
      if_neg (by simpa using h2), if_neg (by simpa using h3)]

/-- Claim C3: duration parsing returns minutes times 60 plus seconds
exactly when the input is a string with two colon separated integer
parts, and 0 for every other input, including the four spec examples. -/
theorem duration_to_seconds_spec (v : PyVal) :
    (∀ s p0 p1 m k, v = PyVal.str s → pySplit ':' s = [p0, p1] →
        pyIntOfString p0 = some m → pyIntOfString p1 = some k →
        duration_to_seconds v = m * 60 + k) ∧
    (twoIntParts v = false → duration_to_seconds v = 0) ∧
    duration_to_seconds (PyVal.str "3:45") = 225 ∧
    duration_to_seconds (PyVal.str "abc") = 0 ∧
    duration_to_seconds PyVal.none = 0 ∧
    duration_to_seconds (PyVal.str "3:45:10") = 0 := by
  refine ⟨?_, duration_to_seconds_zero_of_not_two_parts v, by decide, by decide, by decide,
    by decide⟩
  intro s p0 p1 m k hv hsp h0 h1
  subst hv
  exact duration_to_seconds_of_parts s p0 p1 m k hsp h0 h1

/-- Claim C9: duration parsing applies no range or sign validation: any
string whose two colon separated parts parse as integers yields exactly
minutes times 60 plus seconds, so two colon ninety yields 210 and minus
three colon forty five yields minus 135. -/
theorem duration_no_range_validation :
    (∀ s p0 p1 m k, pySplit ':' s = [p0, p1] →
        pyIntOfString p0 = some m → pyIntOfString p1 = some k →
        duration_to_seconds (PyVal.str s) = m * 60 + k) ∧
    duration_to_seconds (PyVal.str "2:90") = 210 ∧
    duration_to_seconds (PyVal.str "-3:45") = -135 := by
  exact ⟨duration_to_seconds_of_parts, by decide, by decide⟩

/-- The item shapes the artists list loop recognizes: a dict containing a
name key, or a string. -/
def itemShape (item : PyVal) : Bool :=
  match item with
  | .dict entries => (List.find? (fun p => p.1 == "name") entries).isSome
  | .str _ => true
  | _ => false

/-- Claim C10: a dict item whose name field is a non string truthy value
is coerced with str and stripped, so name 42 contributes the string 42;
an item that is neither a dict containing a name key nor a string is
always skipped; and when every item of the artists list is skipped the
resolution falls through to the artist, album and sentinel fallbacks. -/
theorem artist_item_coercion_spec :
    artistFromItem (PyVal.dict [("name", PyVal.int 42)]) = some "42" ∧
    extract_artists_list
      [("artists", PyVal.list [PyVal.dict [("name", PyVal.int 42)]])] = ["42"] ∧
    (∀ item, itemShape item = false → artistFromItem item = Option.none) ∧
    extract_artists_list
      [("artists", PyVal.list [PyVal.int 7, PyVal.list [], PyVal.bool true]),
        ("artist", PyVal.str "C")] = ["C"] ∧
    extract_artists_list [("artists", PyVal.list [PyVal.int 7])] = ["Unknown Artist"] := by
  refine ⟨by decide, by decide, ?_, by decide, by decide⟩
  intro item h
  cases item with
  | dict entries =>
      simp only [itemShape] at h
      rcases hf : List.find? (fun p => p.1 == "name") entries with _ | p
      · simp [artistFromItem, hf]
      · rw [hf] at h; simp at h
  | str s => simp [itemShape] at h
  | none => rfl
  | bool b => rfl
  | int n => rfl
  | timestamp t => rfl
  | list xs => rfl

/-- The boolean order by which the dashboard sorts the normalized frame
(line 316, sort_values on played_at with ascending false): a row comes
no later than another when its timestamp is no smaller, and rows with a
missing timestamp come last (the pandas default na position). -/
def playedAtDescB (a b : NormalizedPlay) : Bool :=
  match a.played_at, b.played_at with
  | some x, some y => decide (y.ns ≤ x.ns)
  | some _, Option.none => true
  | Option.none, Option.none => true
  | Option.none, some _ => false

/-- Propositional form of playedAtDescB, for the sorting lemmas. -/
def playedAtDesc (a b : NormalizedPlay) : Prop :=
  playedAtDescB a b = true

instance : DecidableRel playedAtDesc := fun a b =>
  instDecidableEqBool (playedAtDescB a b) true

instance : IsTotal NormalizedPlay playedAtDesc :=
  ⟨fun a b => by
    unfold playedAtDesc playedAtDescB
    rcases a.played_at with _ | x <;> rcases b.played_at with _ | y <;> simp
    exact le_total y.ns x.ns⟩

instance : IsTrans NormalizedPlay playedAtDesc :=
  ⟨fun a b c hab hbc => by
    unfold playedAtDesc playedAtDescB at *
    rcases ha : a.played_at with _ | x <;> rcases hb : b.played_at with _ | y <;>
      rcases hc : c.played_at with _ | z <;> rw [ha, hb] at hab <;>
      rw [hb, hc] at hbc <;> simp_all <;> omega⟩

/-- The frame wide sort of line 316: the normalized rows ordered by
played_at descending. The embedding uses a stable sort; pandas uses an
unstable one, and no claim depends on the order of ties. -/
def sortedByPlayedAtDesc (recs : List NormalizedPlay) : List NormalizedPlay :=
  recs.insertionSort playedAtDesc

/-- Embeds the filter condition of the By Year branch (line 367): the year
accessor of played_at equals the selected year. A missing played_at
yields a missing year in pandas, which never compares equal, so such
rows are excluded. -/
def yearMatches (y : Int) (r : NormalizedPlay) : Bool :=
  match r.played_at with
  | some t => t.year == y
  | Option.none => false

/-- Embeds the By Year view (lines 366 to 374) as applied to the frame the
sort of line 316 already ordered: keep exactly the rows of the selected
year. When nothing matches the branch swaps in a fresh empty frame
(line 370), which equals the empty filter result. -/
def byYear (y : Int) (recs : List NormalizedPlay) : List NormalizedPlay :=
  (sortedByPlayedAtDesc recs).filter (yearMatches y)

/-- Claim C4: the By Year filter returns exactly the records whose
played_at year equals the selected year (as a permutation of the
matching sublist), excludes every record with a missing played_at,
yields them ordered by played_at descending, and an empty match yields
the empty list rather than an error. -/
theorem byYear_filter_spec (recs : List NormalizedPlay) (y : Int) :
    (∀ r ∈ byYear y recs, ∃ t, r.played_at = some t ∧ t.year = y) ∧
    (byYear y recs).Perm (recs.filter (yearMatches y)) ∧
    (byYear y recs).Pairwise playedAtDesc ∧
    (recs.filter (yearMatches y) = [] → byYear y recs = []) := by
  have hperm : (byYear y recs).Perm (recs.filter (yearMatches y)) :=
    (List.perm_insertionSort playedAtDesc recs).filter (yearMatches y)
  refine ⟨?_, hperm, ?_, ?_⟩
  · intro r hr
    have hm := (List.mem_filter.mp hr).2
    unfold yearMatches at hm
    rcases hp : r.played_at with _ | t
    · rw [hp] at hm; simp at hm
    · rw [hp] at hm
      simp only [beq_iff_eq] at hm
      exact ⟨t, rfl, hm⟩
  · exact (List.sorted_insertionSort playedAtDesc recs).filter (yearMatches y)
  · intro h
    have := h ▸ hperm
    exact (List.Perm.nil_eq this.symm).symm

/-- Embeds the explode of line 466: each normalized row becomes one
virtual row per artist in its artists list, every virtual row carrying
the full played_duration_sec of the record. (For an empty artists list
pandas would emit one virtual row with a missing artist, a case that
cannot arise because extract_artists_list never returns an empty list.) -/
def explodeArtists (recs : List NormalizedPlay) : List (String × Int) :=
  recs.flatMap (fun r => r.artists.map (fun a => (a, r.played_duration_sec)))

/-- Play count of one artist group of the Top Artists table (lines 468 to
479): the number of exploded rows carrying that artist. -/
def artistPlayCount (recs : List NormalizedPlay) (a : String) : Nat :=
  ((explodeArtists recs).map Prod.fst).count a

/-- Total minutes of one artist group (lines 471 to 477): the sum of the
durations of the exploded rows of that artist, divided by 60, in exact
rational arithmetic. -/
def artistTotalMinutes (recs : List NormalizedPlay) (a : String) : ℚ :=
  (((explodeArtists recs).filter (fun p => p.1 == a)).map (fun p => (p.2 : ℚ))).sum / 60

/-- The artist group keys: the distinct artists among the exploded rows. -/
def artistKeys (recs : List NormalizedPlay) : List String :=
  ((explodeArtists recs).map Prod.fst).dedup

/-- The play counts of all artist groups, summed. -/
def totalArtistPlayCount (recs : List NormalizedPlay) : Nat :=
  ((artistKeys recs).map (artistPlayCount recs)).sum

theorem explodeArtists_append (recs : List NormalizedPlay) (r : NormalizedPlay) :
    explodeArtists (recs ++ [r]) =
      explodeArtists recs ++ r.artists.map (fun a => (a, r.played_duration_sec)) := by
  simp [explodeArtists]

theorem map_fst_explodeArtists (recs : List NormalizedPlay) :
    (explodeArtists recs).map Prod.fst = recs.flatMap (fun r => r.artists) := by
  simp [explodeArtists, List.map_flatMap, List.map_map, Function.comp_def]

theorem sum_filter_map_const (l : List String) (d : Int) (a : String) :
    (((l.map (fun x => (x, d))).filter (fun p => p.1 == a)).map
        (fun p => (p.2 : ℚ))).sum = (l.count a : ℚ) * d := by
  induction l with
  | nil => simp
  | cons x xs ih =>
      by_cases hx : x = a
      · subst hx
        simp only [List.map_cons, List.filter_cons, beq_self_eq_true, if_pos]
        simp only [List.map_cons, List.sum_cons, ih, List.count_cons, beq_self_eq_true,
          if_pos]
        push_cast
        ring
      · simp [List.filter_cons, List.count_cons, hx, Ne.symm hx, ih]

theorem artistPlayCount_append (recs : List NormalizedPlay) (r : NormalizedPlay) (a : String) :
    artistPlayCount (recs ++ [r]) a = artistPlayCount recs a + r.artists.count a := by
  simp [artistPlayCount, map_fst_explodeArtists, List.count_append]

theorem artistTotalMinutes_append (recs : List NormalizedPlay) (r : NormalizedPlay)
    (a : String) :
    artistTotalMinutes (recs ++ [r]) a =
      artistTotalMinutes recs a + (r.artists.count a : ℚ) * r.played_duration_sec / 60 := by
  unfold artistTotalMinutes
  rw [explodeArtists_append, List.filter_append, List.map_append, List.sum_append,
    sum_filter_map_const]
  ring

theorem totalArtistPlayCount_eq_sum_lengths (recs : List NormalizedPlay) :
    totalArtistPlayCount recs = (recs.map (fun s => s.artists.length)).sum := by
  unfold totalArtistPlayCount artistKeys artistPlayCount
  rw [List.sum_map_count_dedup_eq_length, map_fst_explodeArtists, List.length_flatMap]
  simp [Function.comp_def]

theorem sum_lengths_bounds (L : List (List String)) (h : ∀ l ∈ L, l ≠ []) :
    L.length ≤ (L.map List.length).sum ∧
    ((L.map List.length).sum = L.length ↔ ∀ l ∈ L, l.length = 1) := by
  induction L with
  | nil => simp
  | cons x xs ih =>
      have hx : x ≠ [] := h x (by simp)
      have hxs := ih (fun l hl => h l (by simp [hl]))
      have h1 : 1 ≤ x.length := List.length_pos.mpr hx
      rcases hxs with ⟨hle, hiff⟩
      constructor
      · simp only [List.map_cons, List.sum_cons, List.length_cons]
        omega
      · simp only [List.map_cons, List.sum_cons, List.length_cons, List.mem_cons]
        constructor
        · intro he
          have hx1 : x.length = 1 := by omega
          have hrest : (xs.map List.length).sum = xs.length := by omega
          intro l hl
          rcases hl with rfl | hl
          · exact hx1
          · exact hiff.mp hrest l hl
        · intro hall
          have hx1 : x.length = 1 := hall x (Or.inl rfl)
          have : (xs.map List.length).sum = xs.length :=
            hiff.mpr (fun l hl => hall l (Or.inr hl))
          omega

/-- Claim C5: the Top Artists aggregation explodes each record into one
virtual row per listed artist, so appending a record with distinct
artists adds a full one to the play count of each listed artist and the
full duration over 60 to each of their minute totals; consequently the
play counts summed over all artist groups are at least the record count,
with equality exactly when every record lists a single artist. -/
theorem top_artists_explode_spec (recs : List NormalizedPlay) (r : NormalizedPlay)
    (a : String) (hmem : a ∈ r.artists) (hnd : r.artists.Nodup)
    (hne : ∀ s ∈ recs, s.artists ≠ []) :
    artistPlayCount (recs ++ [r]) a = artistPlayCount recs a + 1 ∧
    artistTotalMinutes (recs ++ [r]) a =
      artistTotalMinutes recs a + (r.played_duration_sec : ℚ) / 60 ∧
    recs.length ≤ totalArtistPlayCount recs ∧
    (totalArtistPlayCount recs = recs.length ↔ ∀ s ∈ recs, s.artists.length = 1) := by
  have hcount : r.artists.count a = 1 := List.count_eq_one_of_mem hnd hmem
  have hL := sum_lengths_bounds (recs.map (fun s => s.artists)) (by
    intro l hl
    rcases List.mem_map.mp hl with ⟨s, hs, rfl⟩
    exact hne s hs)
  rw [List.map_map, List.length_map] at hL
  simp only [Function.comp_def] at hL
  refine ⟨?_, ?_, ?_, ?_⟩
  · rw [artistPlayCount_append, hcount]
  · rw [artistTotalMinutes_append, hcount]
    push_cast
    ring
  · rw [totalArtistPlayCount_eq_sum_lengths]
    exact hL.1
  · rw [totalArtistPlayCount_eq_sum_lengths]
    constructor
    · intro he s hs
      exact hL.2.mp he s.artists (List.mem_map_of_mem (fun s => s.artists) hs)
    · intro hall
      apply hL.2.mpr
      intro l hl
      rcases List.mem_map.mp hl with ⟨s, hs, rfl⟩
      exact hall s hs

/-- A two artist collaboration record: artists X and Y, duration 120
seconds. -/
def collabRow : Row :=
  [("track_name", PyVal.str "T"),
   ("artists", PyVal.list [PyVal.str "X", PyVal.str "Y"]),
   ("time_taken", PyVal.str "2:00")]

/-- A single artist record: artist Z, duration 60 seconds. -/
def soloRow : Row :=
  [("track_name", PyVal.str "S"), ("artist", PyVal.str "Z"),
   ("time_taken", PyVal.str "1:00")]

/-- Claim C5, witness at a concrete input: appending the X and Y
collaboration to a one record list adds one to the play count of X. -/
theorem top_artists_explode_witness :
    artistPlayCount ([normalizeRecord soloRow] ++ [normalizeRecord collabRow]) "X" =
      artistPlayCount [normalizeRecord soloRow] "X" + 1 :=
  (top_artists_explode_spec [normalizeRecord soloRow] (normalizeRecord collabRow) "X"
    (by decide) (by decide) (by decide)).1

/-- The grouping key of the Top Songs table (line 532): the pair of
track_name and artist_display; the frame is not exploded first. -/
def songKey (r : NormalizedPlay) : PyVal × String :=
  (r.track_name, r.artist_display)

/-- One group row of the Top Songs aggregation (lines 531 to 542): its
key, its play count (the count aggregation over the group) and its total
minutes (the group duration sum over 60). -/
structure SongGroup where
  key : PyVal × String
  play_count : Nat
  total_minutes : ℚ
deriving Repr

/-- Embeds the groupby of lines 531 to 542: one group per distinct key of
the unexploded frame (dropna false keeps a group whose key holds a
missing value), with the aggregates of the rows carrying that key. The
count aggregation of line 534 counts the non null track_name values of
the group, so a row whose track_name is missing adds nothing to the
play count of its group; the minute aggregation of lines 535 to 539
sums the durations of every row of the group. Pandas lists groups in
key order; the embedding lists them in first occurrence order, and no
claim depends on the group order before the final sort. -/
def songGroups (recs : List NormalizedPlay) : List SongGroup :=
  ((recs.map songKey).dedup).map (fun k =>
    { key := k
      play_count := recs.countP (fun r =>
        decide (songKey r = k) && !decide (r.track_name = PyVal.none))
      total_minutes := ((recs.filter (fun r => decide (songKey r = k))).map
        (fun r => (r.played_duration_sec : ℚ))).sum / 60 })

/-- The order of the Top Songs sort (lines 544 to 546): play count
descending, then total minutes descending. -/
def songOrder (g1 g2 : SongGroup) : Prop :=
  g2.play_count < g1.play_count ∨
    (g1.play_count = g2.play_count ∧ g2.total_minutes ≤ g1.total_minutes)

instance : DecidableRel songOrder := fun g1 g2 =>
  inferInstanceAs (Decidable (g2.play_count < g1.play_count ∨
    (g1.play_count = g2.play_count ∧ g2.total_minutes ≤ g1.total_minutes)))

instance : IsTotal SongGroup songOrder :=
  ⟨fun a b => by
    unfold songOrder
    rcases Nat.lt_trichotomy b.play_count a.play_count with h | h | h
    · exact Or.inl (Or.inl h)
    · rcases le_total b.total_minutes a.total_minutes with hm | hm
      · exact Or.inl (Or.inr ⟨h.symm, hm⟩)
      · exact Or.inr (Or.inr ⟨h, hm⟩)
    · exact Or.inr (Or.inl h)⟩

instance : IsTrans SongGroup songOrder :=
  ⟨fun a b c hab hbc => by
    unfold songOrder at *
    rcases hab with h1 | ⟨h1, m1⟩ <;> rcases hbc with h2 | ⟨h2, m2⟩
    · exact Or.inl (by omega)
    · exact Or.inl (by omega)
    · exact Or.inl (by omega)
    · exact Or.inr ⟨by omega, le_trans m2 m1⟩⟩

/-- The Top Songs table (lines 544 to 546): the groups sorted by the song
order and cut to the first ten. Pandas sorts with an unstable algorithm;
ties may come out in any order, and the claim constrains only the
ordering law. -/
def topSongs (recs : List NormalizedPlay) : List SongGroup :=
  ((songGroups recs).insertionSort songOrder).take 10

theorem countP_eq_of_agree {α : Type} (p q : α → Bool) (l : List α)
    (h : ∀ a ∈ l, p a = q a) : l.countP p = l.countP q := by
  induction l with
  | nil => rfl
  | cons x xs ih =>
      rw [List.countP_cons, List.countP_cons, h x (by simp),
        ih (fun a ha => h a (by simp [ha]))]

/-- Claim C6: Top Songs groups the unexploded records by the pair of
track_name and artist_display, so the group keys are exactly the
distinct such pairs (two records sharing a title but differing in
artist_display land in two groups, as in the concrete two record
example); for a group whose track_name is present the play count counts
the records carrying the pair, while a group keyed by a missing
track_name gets play count zero (the count aggregation counts non null
track_name values only, as the concrete missing title example shows); a
two artist collaboration forms one group keyed by the joined artist
string, and the final table is ordered by play count descending then
total minutes descending with at most ten rows. -/
theorem top_songs_grouping_spec (recs : List NormalizedPlay) :
    ((songGroups recs).map SongGroup.key).Nodup ∧
    (∀ k, (∃ g ∈ songGroups recs, g.key = k) ↔ ∃ r ∈ recs, songKey r = k) ∧
    (∀ g ∈ songGroups recs, g.key.1 ≠ PyVal.none →
      g.play_count = recs.countP (fun r => decide (songKey r = g.key))) ∧
    (∀ g ∈ songGroups recs, g.key.1 = PyVal.none → g.play_count = 0) ∧
    (songGroups [normalizeRecord [("track_name", PyVal.str "Hi"), ("artist", PyVal.str "A")],
      normalizeRecord [("track_name", PyVal.str "Hi"),
        ("artist", PyVal.str "B")]]).length = 2 ∧
    (songGroups [normalizeRecord collabRow]).map SongGroup.key =
      [(PyVal.str "T", "X, Y")] ∧
    (songGroups [normalizeRecord [("artist", PyVal.str "A")]]).map
      (fun g => (g.key.1, g.play_count)) = [(PyVal.none, 0)] ∧
    (topSongs recs).Pairwise songOrder ∧
    (topSongs recs).length ≤ 10 := by
  refine ⟨?_, ?_, ?_, ?_, by decide, by decide, by decide, ?_, ?_⟩
  · have : ((songGroups recs).map SongGroup.key) = (recs.map songKey).dedup := by
      simp [songGroups, List.map_map, Function.comp_def]
    rw [this]
    exact List.nodup_dedup _
  · intro k
    constructor
    · rintro ⟨g, hg, rfl⟩
      rcases List.mem_map.mp hg with ⟨k0, hk0, rfl⟩
      have : k0 ∈ recs.map songKey := List.mem_dedup.mp hk0
      rcases List.mem_map.mp this with ⟨r, hr, rfl⟩
      exact ⟨r, hr, rfl⟩
    · rintro ⟨r, hr, rfl⟩
      refine ⟨⟨songKey r,
        recs.countP (fun s =>
          decide (songKey s = songKey r) && !decide (s.track_name = PyVal.none)),
        ((recs.filter (fun s => decide (songKey s = songKey r))).map
          (fun s => (s.played_duration_sec : ℚ))).sum / 60⟩, ?_, rfl⟩
      apply List.mem_map.mpr
      exact ⟨songKey r, List.mem_dedup.mpr (List.mem_map_of_mem songKey hr), rfl⟩
  · intro g hg hnn
    rcases List.mem_map.mp hg with ⟨k0, _, rfl⟩
    apply countP_eq_of_agree
    intro r _
    by_cases hk : songKey r = k0
    · have ht : r.track_name = k0.1 := congrArg Prod.fst hk
      simp_all
    · simp [hk]
  · intro g hg hnull
    rcases List.mem_map.mp hg with ⟨k0, _, rfl⟩
    apply List.countP_eq_zero.mpr
    intro r _
    by_cases hk : songKey r = k0
    · have ht : r.track_name = k0.1 := congrArg Prod.fst hk
      simp_all
    · simp [hk]
  · exact List.Pairwise.sublist (List.take_sublist 10 _)
      (List.sorted_insertionSort songOrder (songGroups recs))
  · exact List.length_take_le 10 _

/-- The fixed display order of the day of week donut (lines 842 to 850):
Sunday first. -/
def days_order : List String :=
  ["Sunday", "Monday", "Tuesday", "Wednesday", "Thursday", "Friday", "Saturday"]

/-- Embeds the days_map dict of lines 851 to 859 as the pandas Series map
uses it: the pandas dayofweek (Monday is 0) to the day name, and a key
outside the dict maps to missing. -/
def days_map (d : Nat) : Option String :=
  match d with
  | 0 => some "Monday"
  | 1 => some "Tuesday"
  | 2 => some "Wednesday"
  | 3 => some "Thursday"
  | 4 => some "Friday"
  | 5 => some "Saturday"
  | 6 => some "Sunday"
  | _ => Option.none

/-- The Day column of line 860: the mapped day name of the record, missing
when played_at is missing (dayofweek of a missing timestamp is missing,
and the map sends it to missing). -/
def dayName (r : NormalizedPlay) : Option String :=
  match r.played_at with
  | some t => days_map t.dayofweek
  | Option.none => Option.none

/-- Embeds daily_counts (lines 862 to 871): the groupby of line 863 counts
the rows of each day name that occurs (rows with a missing Day are
dropped by groupby), and the reindex over days_order of line 865 emits
one entry per display day, carrying the group size where a group exists
and a missing value (NaN) where none does. The source applies no fillna
to this frame, unlike the hourly histogram of lines 744 to 747, so a day
without plays keeps the missing value; the subsequent categorical sort
of lines 868 to 871 keeps the Sunday first order the reindex already
produced. -/
def daily_counts (recs : List NormalizedPlay) : List (String × Option Nat) :=
  days_order.map (fun day =>
    let n := recs.countP (fun r => dayName r == some day)
    (day, if n = 0 then Option.none else some n))

/-- A timestamp falling on a Monday in December 2024 (pandas dayofweek 0),
at ten in the morning. -/
def mondayTs : Timestamp :=
  { ns := 1734343200000000000, year := 2024, month := 12, hour := 10, dayofweek := 0 }

/-- A play on that Monday. -/
def mondayRow : Row :=
  [("played_at", PyVal.timestamp mondayTs), ("track_name", PyVal.str "M"),
   ("artist", PyVal.str "A"), ("time_taken", PyVal.str "3:00")]

/-- Claim C7: on a filtered set whose plays all fall on a Monday the day
of week frame does contain all seven buckets in the fixed Sunday first
display order, but every day without plays carries a missing value (NaN)
rather than a zero: the source reindexes over days_order without the
fillna its hourly counterpart applies, so the zero fill the claim states
does not happen. -/
theorem daily_counts_missing_days_are_nan :
    daily_counts [normalizeRecord mondayRow] =
      [("Sunday", Option.none), ("Monday", some 1), ("Tuesday", Option.none),
       ("Wednesday", Option.none), ("Thursday", Option.none), ("Friday", Option.none),
       ("Saturday", Option.none)] ∧
    (daily_counts [normalizeRecord mondayRow]).length = 7 ∧
    (daily_counts [normalizeRecord mondayRow]).map Prod.fst = days_order := by
  refine ⟨by decide, by decide, by decide⟩

/-- The row cap of the All Songs table (line 593). -/
def MAX_ROWS : Nat := 200

/-- The initial page size of the All Songs table (line 594). -/
def INITIAL_ROWS : Nat := 50

/-- Embeds cached_rows (line 677): the sorted display frame truncated with
head to the row cap, stored before any pagination. The session default
sorts by played_at descending (lines 603 to 606), embedded here; the row
counts the claim is about do not depend on the ordering relation. -/
def cachedRows (rows : List NormalizedPlay) : List NormalizedPlay :=
  (sortedByPlayedAtDesc rows).take MAX_ROWS

/-- Embeds the rows_displayed session value over show more clicks: it
starts at INITIAL_ROWS (line 681) and each click of Show 50 more raises
it by 50, clamped to the cached row count (lines 712 to 716). -/
def rowsDisplayedAfter (cachedLen : Nat) : Nat → Nat
  | 0 => INITIAL_ROWS
  | k + 1 => min (rowsDisplayedAfter cachedLen k + 50) cachedLen

/-- Embeds n_rows (line 691), the number of rows the table renders: the
smaller of rows_displayed and the cached row count. -/
def nRowsShown (cachedLen : Nat) (k : Nat) : Nat :=
  min (rowsDisplayedAfter cachedLen k) cachedLen

/-- Embeds the end of list message (lines 717 to 720): in the run that
handles a click the message shows once rows_displayed has reached the
cached row count. The elif of lines 721 to 724 repeats the message on
later runs when the cache sits exactly at the cap and more rows
qualified; it never fires earlier, so the first appearance of the signal
is the one modelled here. -/
def endOfListShown (cachedLen : Nat) (k : Nat) : Bool :=
  decide (1 ≤ k) && decide (cachedLen ≤ rowsDisplayedAfter cachedLen k)

/-- Claim C8: the All Songs table never shows more than 200 rows: the cap
is applied to the sorted rows before pagination (the cache holds the
smaller of the row count and 200), the table starts at 50 visible rows,
each show more click grows the visible count by at most 50 and never
past the cached total, with 150 qualifying rows the visible sequence is
50, 100, 150 and the end of list signal appears exactly at the third
state, and with 500 qualifying rows the cache is 200 rows, the visible
sequence is 50, 100, 150, 200 with the signal at the fourth state, and
no state ever shows more than 200 rows. -/
theorem all_songs_pagination_spec (rows : List NormalizedPlay) (k : Nat) :
    (cachedRows rows).length = min rows.length MAX_ROWS ∧
    (cachedRows rows).length ≤ 200 ∧
    nRowsShown (cachedRows rows).length k ≤ (cachedRows rows).length ∧
    nRowsShown (cachedRows rows).length 0 = min INITIAL_ROWS (cachedRows rows).length ∧
    nRowsShown (cachedRows rows).length (k + 1) ≤
      nRowsShown (cachedRows rows).length k + 50 ∧
    [nRowsShown 150 0, nRowsShown 150 1, nRowsShown 150 2] = [50, 100, 150] ∧
    [endOfListShown 150 0, endOfListShown 150 1, endOfListShown 150 2] =
      [false, false, true] ∧
    [nRowsShown 200 0, nRowsShown 200 1, nRowsShown 200 2, nRowsShown 200 3] =
      [50, 100, 150, 200] ∧
    endOfListShown 200 3 = true ∧
    nRowsShown (min 500 MAX_ROWS) k ≤ 200 := by
  have hmax : MAX_ROWS = 200 := rfl
  have hlen : (cachedRows rows).length = min rows.length MAX_ROWS := by
    unfold cachedRows sortedByPlayedAtDesc
    rw [List.length_take,
      (List.perm_insertionSort playedAtDesc rows).length_eq]
    omega
  refine ⟨hlen, by omega, ?_, ?_, ?_, by decide, by decide, by decide, by decide, ?_⟩
  · exact Nat.min_le_right _ _
  · rfl
  · unfold nRowsShown
    have hstep : rowsDisplayedAfter (cachedRows rows).length (k + 1) =
        min (rowsDisplayedAfter (cachedRows rows).length k + 50)
          (cachedRows rows).length := rfl
    rw [hstep]
    omega
  · unfold nRowsShown
    have h500 : min 500 MAX_ROWS = 200 := by decide
    rw [h500]
    omega

end Dashboard
